import Mathlib

/-!
Shallow embedding of `tastypie/api.py` (the `Api` registry class of
django-tastypie) and proofs about it.

The Python `dict` fields `self._registry` and `self._canonicals` are
modelled as insertion-ordered association lists with the usual dict
operations (lookup of the first matching key, insertion that overwrites
in place, deletion that filters the key out).  Resources are modelled as
records carrying the attributes the code reads or writes
(`resource_name`, and the `api_name` attribute assigned by `Api.urls`)
plus a numeric identity so that distinct resource objects with equal
attributes can be told apart.

Python exceptions are modelled with `Except`, the error carrying the
state at the raise point, so that atomicity-on-error is expressible.
-/

/-- A Python `dict` with `String` keys, as an insertion-ordered
association list.  Dicts built by the operations below from the empty
dict always have pairwise-distinct keys. -/
abbrev Dict (α : Type) := List (String × α)

/-- Dict lookup: value of the first pair whose key matches. -/
def dictGet {α : Type} (d : Dict α) (k : String) : Option α :=
  (d.find? (fun p => p.1 == k)).map Prod.snd

/-- Dict membership test (`k in d` in Python). -/
def dictContains {α : Type} (d : Dict α) (k : String) : Bool :=
  d.any (fun p => p.1 == k)

/-- Dict assignment `d[k] = v`: overwrite in place if the key is
present, append otherwise. -/
def dictInsert {α : Type} (d : Dict α) (k : String) (v : α) : Dict α :=
  if d.any (fun p => p.1 == k) then
    d.map (fun p => if p.1 == k then (k, v) else p)
  else
    d ++ [(k, v)]

/-- Dict deletion `del d[k]`: remove every pair with the given key. -/
def dictDelete {α : Type} (d : Dict α) (k : String) : Dict α :=
  d.filter (fun p => p.1 != k)

/-- The keys of a dict, in insertion order. -/
def dictKeys {α : Type} (d : Dict α) : List String :=
  d.map Prod.fst

/-- `sorted(d.keys())` in Python: the keys in ascending lexicographic
order. -/
def sortedKeys {α : Type} (d : Dict α) : List String :=
  (dictKeys d).insertionSort (· ≤ ·)

/-- A resource object, carrying the attributes `Api` reads or writes:
`resource_name` (absent modelled as `none`, matching
`getattr(resource, 'resource_name', None)`), the `api_name` attribute
assigned by `Api.urls`, and an object identity `rid`. -/
structure Resource where
  resource_name : Option String
  api_name : Option String
  rid : Nat
deriving DecidableEq

/-- The exceptions raised by the code of `api.py`. -/
inductive ApiError where
  | improperlyConfigured (msg : String)
  | notRegistered (msg : String)
deriving DecidableEq

/-- The state of an `Api` object: `api_name`, `_registry` and
`_canonicals`. -/
structure Api where
  api_name : String
  registry : Dict Resource
  canonicals : Dict Resource
deriving DecidableEq

/-- `Api(api_name="v1")`: the initial state of a fresh `Api`. -/
def initialApi : Api :=
  { api_name := "v1", registry := [], canonicals := [] }

/-- `Api.register(resource, canonical=True)`.  Raises
`ImproperlyConfigured` when the resource has no `resource_name`
(before touching any state); otherwise stores the resource in the
registry and, when `canonical` is true, in the canonicals mapping.
The global `_add_resource` side effect is outside the `Api` state and
is not modelled. -/
def Api.register (api : Api) (resource : Resource) (canonical : Bool) :
    Except (ApiError × Api) Api :=
  match resource.resource_name with
  | none =>
      .error (.improperlyConfigured "Resource must define a 'resource_name'.", api)
  | some resource_name =>
      let registry := dictInsert api.registry resource_name resource
      let canonicals :=
        if canonical then dictInsert api.canonicals resource_name resource
        else api.canonicals
      .ok { api with registry := registry, canonicals := canonicals }

/-- `Api.unregister(resource_name)`: delete the name from the registry
and from the canonicals mapping, each only when present.  The global
`_remove_resource` side effect is outside the `Api` state and is not
modelled. -/
def Api.unregister (api : Api) (resource_name : String) : Api :=
  let registry :=
    if dictContains api.registry resource_name then
      dictDelete api.registry resource_name
    else api.registry
  let canonicals :=
    if dictContains api.canonicals resource_name then
      dictDelete api.canonicals resource_name
    else api.canonicals
  { api with registry := registry, canonicals := canonicals }

/-- `Api.canonical_resource_for(resource_name)`: return the canonical
resource, or raise `NotRegistered`.  The state is returned alongside to
make the frame condition expressible. -/
def Api.canonical_resource_for (api : Api) (resource_name : String) :
    Except (ApiError × Api) (Resource × Api) :=
  match dictGet api.canonicals resource_name with
  | some resource => .ok (resource, api)
  | none =>
      .error (.notRegistered
        ("No resource was registered as canonical for '" ++ resource_name ++ "'."),
        api)

/-- A URL pattern as produced by `Api.urls`: either a direct `url(...)`
entry routing a regex to a named view, or an `include(...)` of a
resource's own patterns under a regex. -/
inductive UrlPattern where
  | view (regex : String) (viewName : String) (patternName : String)
  | includeRes (regex : String) (resource : Resource)
deriving DecidableEq

/-- The body of the `for` loop in `Api.urls`: set the resource's
`api_name` attribute in place, then append an `include` of its urls
under the api-name regex.  The accumulator carries the (mutated)
registry and the pattern list built so far. -/
def urlsStep (api_name : String) (acc : Dict Resource × List UrlPattern)
    (name : String) : Dict Resource × List UrlPattern :=
  match dictGet acc.1 name with
  | some r =>
      let r := { r with api_name := some api_name }
      (dictInsert acc.1 name r,
       acc.2 ++ [UrlPattern.includeRes ("^(?P<api_name>" ++ api_name ++ ")/") r])
  | none => acc

/-- The `Api.urls` property: the top-level discovery pattern followed by
one include per registered resource, iterating over
`sorted(self._registry.keys())`.  Returns the pattern list together with
the resulting `Api` state (the loop mutates each registered resource's
`api_name` attribute). -/
def Api.urls (api : Api) : List UrlPattern × Api :=
  let top : UrlPattern :=
    .view ("^(?P<api_name>" ++ api.api_name ++ ")/$") "top_level"
      ("api_" ++ api.api_name ++ "_top_level")
  let result := (sortedKeys api.registry).foldl (urlsStep api.api_name)
    (api.registry, [top])
  (result.2, { api with registry := result.1 })

/-- An HTTP request, reduced to what `top_level` reads from it: the
data `determine_format` uses to pick a serialization format. -/
structure Request where
  fmt : String
deriving DecidableEq

/-- An `HttpResponse`, reduced to the two arguments `top_level` builds
it from. -/
structure HttpResponse where
  content : String
  content_type : String
deriving DecidableEq

/-- Modelled from the spec: `determine_format` from
`tastypie.utils.mime` is not under `src/`; the spec says format
negotiation is deferred to it, so it is modelled as reading the
request's format field. -/
def determine_format (request : Request) : String :=
  request.fmt

/-- Modelled from the spec: `build_content_type` from
`tastypie.utils.mime` is not under `src/`; modelled as an abstract
content-type string built from the format. -/
def build_content_type (fmt : String) : String :=
  fmt ++ "; charset=utf-8"

/-- Modelled from the spec: `Serializer.serialize` from
`tastypie.serializers` is not under `src/`; the spec says serialization
is deferred to it, so it is modelled as an abstract encoding of the
mapping in the desired format. -/
def serialize (m : Dict String) (fmt : String) : String :=
  fmt ++ "|" ++ String.intercalate ","
    (m.map (fun p => p.1 ++ "=" ++ p.2))

/-- Model of Django's `reverse("api_dispatch_list", kwargs={...})`: the
list-endpoint URL built from the api name and the resource name. -/
def reverse_api_dispatch_list (api_name : String) (resource_name : String) : String :=
  "/" ++ api_name ++ "/" ++ resource_name ++ "/"

/-- `Api.top_level(request, api_name=None)`: build the mapping from
each registered resource name (in sorted order) to its reversed
list-endpoint URL, serialize it in the negotiated format, and return an
`HttpResponse`.  The `Api` state is returned alongside to make the
frame condition expressible. -/
def Api.top_level (api : Api) (request : Request) (api_name : Option String) :
    HttpResponse × Api :=
  let api_name :=
    match api_name with
    | none => api.api_name
    | some a => a
  let available_resources : Dict String :=
    (sortedKeys api.registry).foldl
      (fun acc name => dictInsert acc name (reverse_api_dispatch_list api_name name))
      []
  let desired_format := determine_format request
  let serialized := serialize available_resources desired_format
  ({ content := serialized, content_type := build_content_type desired_format }, api)

/-- One call against an `Api`, for trace reasoning. -/
inductive Op where
  | reg (resource : Resource) (canonical : Bool)
  | unreg (resource_name : String)
deriving DecidableEq

/-- Apply one operation; a raised `ImproperlyConfigured` leaves the
state it carries (which is the pre-state). -/
def applyOp (api : Api) : Op → Api
  | .reg r c =>
      match Api.register api r c with
      | .ok api => api
      | .error (_, api) => api
  | .unreg n => Api.unregister api n

/-- Run a sequence of operations from the initial empty `Api`. -/
def runOps (ops : List Op) : Api :=
  ops.foldl applyOp initialApi

/-- The resource most recently registered as canonical under `name` and
not unregistered since, read off a trace of operations. -/
def lastCanonical (ops : List Op) (name : String) : Option Resource :=
  ops.foldl
    (fun acc op =>
      match op with
      | .reg r c => if r.resource_name = some name ∧ c = true then some r else acc
      | .unreg n => if n = name then none else acc)
    none

/-- The registry/canonicals invariant: every canonical name is a
registered name. -/
def ApiInv (api : Api) : Prop :=
  ∀ n, n ∈ dictKeys api.canonicals → n ∈ dictKeys api.registry

/-! ### Dictionary lemmas -/

theorem dictKeys_cons {α : Type} (p : String × α) (d : Dict α) :
    dictKeys (p :: d) = p.1 :: dictKeys d := rfl

theorem dictGet_cons {α : Type} (p : String × α) (d : Dict α) (k : String) :
    dictGet (p :: d) k = if p.1 == k then some p.2 else dictGet d k := by
  cases h : p.1 == k <;> simp [dictGet, List.find?_cons, h]

theorem dictDelete_cons {α : Type} (p : String × α) (d : Dict α) (k : String) :
    dictDelete (p :: d) k =
      if p.1 == k then dictDelete d k else p :: dictDelete d k := by
  cases h : p.1 == k <;> simp [dictDelete, List.filter_cons, bne, h]

theorem dictContains_iff_mem {α : Type} (d : Dict α) (k : String) :
    dictContains d k = true ↔ k ∈ dictKeys d := by
  rw [dictContains, List.any_eq_true, dictKeys]
  constructor
  · rintro ⟨p, hp, hpk⟩
    rw [beq_iff_eq] at hpk
    exact hpk ▸ List.mem_map_of_mem Prod.fst hp
  · intro hm
    rw [List.mem_map] at hm
    obtain ⟨p, hp, rfl⟩ := hm
    exact ⟨p, hp, by simp⟩

theorem dictGet_isSome_iff_mem {α : Type} (d : Dict α) (k : String) :
    (dictGet d k).isSome = true ↔ k ∈ dictKeys d := by
  induction d with
  | nil => simp [dictGet, dictKeys]
  | cons p d ih =>
    rw [dictGet_cons, dictKeys_cons, List.mem_cons]
    by_cases h : (p.1 == k) = true
    · rw [beq_iff_eq] at h
      simp [h]
    · have hne : p.1 ≠ k := by simpa using h
      rw [if_neg h, ih]
      constructor
      · exact Or.inr
      · rintro (hk | hm)
        · exact absurd hk.symm hne
        · exact hm

theorem dictGet_eq_none_of_not_mem {α : Type} {d : Dict α} {k : String}
    (h : k ∉ dictKeys d) : dictGet d k = none := by
  cases hg : dictGet d k with
  | none => rfl
  | some v =>
    exact absurd ((dictGet_isSome_iff_mem d k).mp (by rw [hg]; rfl)) h

theorem dictGet_map_replace {α : Type} (d : Dict α) (k : String) (v : α)
    (h : d.any (fun p => p.1 == k) = true) :
    dictGet (d.map (fun p => if p.1 == k then (k, v) else p)) k = some v := by
  induction d with
  | nil => simp at h
  | cons p d ih =>
    rw [List.map_cons]
    by_cases hp : (p.1 == k) = true
    · rw [if_pos hp, dictGet_cons, if_pos (by simp)]
    · rw [if_neg hp, dictGet_cons, if_neg hp]
      simp only [List.any_cons, Bool.or_eq_true] at h
      exact ih (h.resolve_left hp)

theorem dictGet_append_fresh {α : Type} (d : Dict α) (k : String) (v : α)
    (h : ∀ p ∈ d, (p.1 == k) = false) :
    dictGet (d ++ [(k, v)]) k = some v := by
  induction d with
  | nil =>
    rw [List.nil_append, dictGet_cons, if_pos (by simp)]
  | cons p d ih =>
    rw [List.cons_append, dictGet_cons, if_neg (by simp [h p (List.mem_cons_self p d)])]
    exact ih fun q hq => h q (List.mem_cons_of_mem p hq)

theorem dictGet_insert_self {α : Type} (d : Dict α) (k : String) (v : α) :
    dictGet (dictInsert d k v) k = some v := by
  rw [dictInsert]
  by_cases h : d.any (fun p => p.1 == k) = true
  · rw [if_pos h]
    exact dictGet_map_replace d k v h
  · rw [if_neg h]
    rw [Bool.not_eq_true, List.any_eq_false] at h
    exact dictGet_append_fresh d k v fun p hp => by simpa using h p hp

theorem dictGet_map_replace_ne {α : Type} (d : Dict α) (k k2 : String) (v : α)
    (hne : k2 ≠ k) :
    dictGet (d.map (fun p => if p.1 == k then (k, v) else p)) k2 = dictGet d k2 := by
  induction d with
  | nil => rfl
  | cons p d ih =>
    rw [List.map_cons, dictGet_cons, dictGet_cons]
    by_cases hp : (p.1 == k) = true
    · have hp2 : (p.1 == k2) = false := by
        rw [beq_iff_eq] at hp
        rw [beq_eq_false_iff_ne, hp]
        exact fun hcon => hne hcon.symm
      have hk2 : (k == k2) = false := by
        rw [beq_eq_false_iff_ne]
        exact fun hcon => hne hcon.symm
      rw [if_pos hp, if_neg (by simp [hk2]), if_neg (by simp [hp2])]
      exact ih
    · rw [if_neg hp]
      by_cases hp2 : (p.1 == k2) = true
      · rw [if_pos hp2, if_pos hp2]
      · rw [if_neg hp2, if_neg hp2]
        exact ih

theorem dictGet_append_single_ne {α : Type} (d : Dict α) (k k2 : String) (v : α)
    (hne : k2 ≠ k) : dictGet (d ++ [(k, v)]) k2 = dictGet d k2 := by
  have hk2 : (k == k2) = false := by
    rw [beq_eq_false_iff_ne]
    exact fun hcon => hne hcon.symm
  induction d with
  | nil =>
    rw [List.nil_append, dictGet_cons, if_neg (by simp [hk2])]
  | cons p d ih =>
    rw [List.cons_append, dictGet_cons, dictGet_cons]
    by_cases hp2 : (p.1 == k2) = true
    · rw [if_pos hp2, if_pos hp2]
    · rw [if_neg hp2, if_neg hp2]
      exact ih

theorem dictGet_insert_ne {α : Type} (d : Dict α) (k k2 : String) (v : α)
    (hne : k2 ≠ k) : dictGet (dictInsert d k v) k2 = dictGet d k2 := by
  rw [dictInsert]
  by_cases h : d.any (fun p => p.1 == k) = true
  · rw [if_pos h]
    exact dictGet_map_replace_ne d k k2 v hne
  · rw [if_neg h]
    exact dictGet_append_single_ne d k k2 v hne

theorem dictKeys_insert_of_contains {α : Type} (d : Dict α) (k : String) (v : α)
    (h : d.any (fun p => p.1 == k) = true) :
    dictKeys (dictInsert d k v) = dictKeys d := by
  rw [dictInsert, if_pos h]
  clear h
  induction d with
  | nil => rfl
  | cons p d ih =>
    rw [List.map_cons, dictKeys_cons, dictKeys_cons]
    by_cases hp : (p.1 == k) = true
    · rw [if_pos hp]
      show k :: dictKeys (d.map fun p => if p.1 == k then (k, v) else p) = _
      rw [ih, beq_iff_eq.mp hp]
    · rw [if_neg hp]
      show p.1 :: dictKeys (d.map fun p => if p.1 == k then (k, v) else p) = _
      rw [ih]

theorem dictKeys_insert_of_not_contains {α : Type} (d : Dict α) (k : String) (v : α)
    (h : d.any (fun p => p.1 == k) = false) :
    dictKeys (dictInsert d k v) = dictKeys d ++ [k] := by
  rw [dictInsert, if_neg (by rw [h]; exact fun hcon => Bool.noConfusion hcon)]
  simp [dictKeys]

theorem mem_dictKeys_insert {α : Type} (d : Dict α) (k k2 : String) (v : α) :
    k2 ∈ dictKeys (dictInsert d k v) ↔ k2 ∈ dictKeys d ∨ k2 = k := by
  by_cases h : d.any (fun p => p.1 == k) = true
  · rw [dictKeys_insert_of_contains d k v h]
    constructor
    · exact Or.inl
    · rintro (hm | rfl)
      · exact hm
      · rw [List.any_eq_true] at h
        obtain ⟨p, hp, hpk⟩ := h
        rw [beq_iff_eq] at hpk
        exact hpk ▸ List.mem_map_of_mem Prod.fst hp
  · rw [dictKeys_insert_of_not_contains d k v (by rw [Bool.not_eq_true] at h; exact h)]
    simp

theorem nodup_dictKeys_insert {α : Type} (d : Dict α) (k : String) (v : α)
    (h : (dictKeys d).Nodup) : (dictKeys (dictInsert d k v)).Nodup := by
  by_cases hc : d.any (fun p => p.1 == k) = true
  · rw [dictKeys_insert_of_contains d k v hc]
    exact h
  · rw [dictKeys_insert_of_not_contains d k v (by rw [Bool.not_eq_true] at hc; exact hc)]
    rw [List.nodup_append]
    refine ⟨h, List.nodup_singleton k, ?_⟩
    intro a ha hb
    rw [List.mem_singleton] at hb
    subst hb
    rw [Bool.not_eq_true, List.any_eq_false] at hc
    rw [dictKeys, List.mem_map] at ha
    obtain ⟨p, hp, rfl⟩ := ha
    exact hc p hp (by simp)

theorem dictGet_delete_self {α : Type} (d : Dict α) (k : String) :
    dictGet (dictDelete d k) k = none := by
  rw [dictGet, Option.map_eq_none', List.find?_eq_none]
  intro p hp
  rw [dictDelete, List.mem_filter] at hp
  simpa [bne] using hp.2

theorem dictGet_delete_ne {α : Type} (d : Dict α) (k k2 : String)
    (hne : k2 ≠ k) : dictGet (dictDelete d k) k2 = dictGet d k2 := by
  induction d with
  | nil => rfl
  | cons p d ih =>
    rw [dictDelete_cons, dictGet_cons]
    by_cases hp : (p.1 == k) = true
    · have hp2 : (p.1 == k2) = false := by
        rw [beq_iff_eq] at hp
        rw [beq_eq_false_iff_ne, hp]
        exact fun hcon => hne hcon.symm
      rw [if_pos hp, if_neg (by simp [hp2])]
      exact ih
    · rw [if_neg hp, dictGet_cons]
      by_cases hp2 : (p.1 == k2) = true
      · rw [if_pos hp2, if_pos hp2]
      · rw [if_neg hp2, if_neg hp2]
        exact ih

theorem mem_dictKeys_delete {α : Type} (d : Dict α) (k k2 : String) :
    k2 ∈ dictKeys (dictDelete d k) ↔ k2 ∈ dictKeys d ∧ k2 ≠ k := by
  rw [dictKeys, dictDelete, dictKeys]
  constructor
  · intro hm
    rw [List.mem_map] at hm
    obtain ⟨p, hp, rfl⟩ := hm
    rw [List.mem_filter] at hp
    refine ⟨List.mem_map_of_mem Prod.fst hp.1, ?_⟩
    simpa [bne] using hp.2
  · rintro ⟨hm, hne⟩
    rw [List.mem_map] at hm
    obtain ⟨p, hp, rfl⟩ := hm
    refine List.mem_map_of_mem Prod.fst ?_
    rw [List.mem_filter]
    exact ⟨hp, by simpa [bne] using hne⟩

theorem nodup_dictKeys_delete {α : Type} (d : Dict α) (k : String)
    (h : (dictKeys d).Nodup) : (dictKeys (dictDelete d k)).Nodup := by
  have hsub : List.Sublist (dictKeys (dictDelete d k)) (dictKeys d) :=
    List.Sublist.map Prod.fst (List.filter_sublist d)
  exact hsub.nodup h

/-! ### Operation-level lemmas -/

theorem register_of_name_none {api : Api} {r : Resource} {c : Bool}
    (h : r.resource_name = none) :
    Api.register api r c =
      Except.error (ApiError.improperlyConfigured
        "Resource must define a 'resource_name'.", api) := by
  simp [Api.register, h]

theorem register_of_name_some {api : Api} {r : Resource} {c : Bool} {nm : String}
    (h : r.resource_name = some nm) :
    Api.register api r c = Except.ok
      { api with
        registry := dictInsert api.registry nm r,
        canonicals :=
          if c then dictInsert api.canonicals nm r else api.canonicals } := by
  simp [Api.register, h]

theorem unregister_def (api : Api) (n : String) :
    Api.unregister api n =
      { api with
        registry :=
          if dictContains api.registry n then dictDelete api.registry n
          else api.registry,
        canonicals :=
          if dictContains api.canonicals n then dictDelete api.canonicals n
          else api.canonicals } := rfl

theorem not_mem_registry_unregister (api : Api) (n : String) :
    n ∉ dictKeys (Api.unregister api n).registry := by
  rw [unregister_def]
  by_cases hc : dictContains api.registry n = true
  · rw [if_pos hc]
    intro hm
    exact ((mem_dictKeys_delete api.registry n n).mp hm).2 rfl
  · rw [if_neg hc]
    intro hm
    exact hc ((dictContains_iff_mem api.registry n).mpr hm)

theorem not_mem_canonicals_unregister (api : Api) (n : String) :
    n ∉ dictKeys (Api.unregister api n).canonicals := by
  rw [unregister_def]
  by_cases hc : dictContains api.canonicals n = true
  · rw [if_pos hc]
    intro hm
    exact ((mem_dictKeys_delete api.canonicals n n).mp hm).2 rfl
  · rw [if_neg hc]
    intro hm
    exact hc ((dictContains_iff_mem api.canonicals n).mpr hm)

theorem unregister_of_not_contains (api : Api) (n : String)
    (h1 : dictContains api.registry n = false)
    (h2 : dictContains api.canonicals n = false) :
    Api.unregister api n = api := by
  rw [unregister_def, if_neg (by rw [h1]; exact fun hcon => Bool.noConfusion hcon),
    if_neg (by rw [h2]; exact fun hcon => Bool.noConfusion hcon)]

theorem nodup_registry_applyOp (api : Api) (op : Op)
    (h : (dictKeys api.registry).Nodup) :
    (dictKeys (applyOp api op).registry).Nodup := by
  cases op with
  | reg r c =>
    cases hr : r.resource_name with
    | none => simpa [applyOp, register_of_name_none hr] using h
    | some nm =>
      simp only [applyOp, register_of_name_some hr]
      exact nodup_dictKeys_insert api.registry nm r h
  | unreg n =>
    simp only [applyOp, unregister_def]
    by_cases hc : dictContains api.registry n = true
    · simp only [if_pos hc]
      exact nodup_dictKeys_delete api.registry n h
    · simp only [if_neg hc]
      exact h

theorem nodup_registry_foldl (ops : List Op) :
    ∀ api : Api, (dictKeys api.registry).Nodup →
      (dictKeys (ops.foldl applyOp api).registry).Nodup := by
  induction ops with
  | nil => exact fun api h => h
  | cons op ops ih =>
    intro api h
    rw [List.foldl_cons]
    exact ih (applyOp api op) (nodup_registry_applyOp api op h)

theorem apiInv_register_ok (api : Api) (r : Resource) (c : Bool) (api2 : Api)
    (hinv : ApiInv api) (heq : Api.register api r c = Except.ok api2) :
    ApiInv api2 := by
  cases hr : r.resource_name with
  | none =>
    rw [register_of_name_none hr] at heq
    exact absurd heq (by simp)
  | some nm =>
    rw [register_of_name_some hr] at heq
    obtain rfl := Except.ok.inj heq
    intro m hm
    dsimp only at hm ⊢
    have key : m ∈ dictKeys api.canonicals ∨ m = nm := by
      cases c with
      | true =>
        rw [if_pos rfl] at hm
        exact (mem_dictKeys_insert api.canonicals nm m r).mp hm
      | false =>
        rw [if_neg Bool.false_ne_true] at hm
        exact Or.inl hm
    rcases key with hmc | hmeq
    · exact (mem_dictKeys_insert api.registry nm m r).mpr (Or.inl (hinv m hmc))
    · exact (mem_dictKeys_insert api.registry nm m r).mpr (Or.inr hmeq)

theorem apiInv_register_error (api : Api) (r : Resource) (c : Bool)
    (e : ApiError) (api2 : Api) (hinv : ApiInv api)
    (heq : Api.register api r c = Except.error (e, api2)) : ApiInv api2 := by
  cases hr : r.resource_name with
  | none =>
    rw [register_of_name_none hr] at heq
    have h2 := Except.error.inj heq
    have h3 : api = api2 := congrArg Prod.snd h2
    exact h3 ▸ hinv
  | some nm =>
    rw [register_of_name_some hr] at heq
    exact absurd heq (by simp)

theorem apiInv_unregister (api : Api) (n : String) (hinv : ApiInv api) :
    ApiInv (Api.unregister api n) := by
  rw [unregister_def]
  intro m hm
  by_cases hc2 : dictContains api.canonicals n = true
  · rw [if_pos hc2] at hm
    obtain ⟨hmc, hmn⟩ := (mem_dictKeys_delete api.canonicals n m).mp hm
    by_cases hc1 : dictContains api.registry n = true
    · simp only [if_pos hc1]
      exact (mem_dictKeys_delete api.registry n m).mpr ⟨hinv m hmc, hmn⟩
    · simp only [if_neg hc1]
      exact hinv m hmc
  · rw [if_neg hc2] at hm
    have hmn : m ≠ n := by
      rintro rfl
      exact hc2 ((dictContains_iff_mem api.canonicals m).mpr hm)
    by_cases hc1 : dictContains api.registry n = true
    · simp only [if_pos hc1]
      exact (mem_dictKeys_delete api.registry n m).mpr ⟨hinv m hm, hmn⟩
    · simp only [if_neg hc1]
      exact hinv m hm

theorem apiInv_initial : ApiInv initialApi := by
  intro n h
  simp [initialApi, dictKeys] at h

theorem apiInv_applyOp (api : Api) (op : Op) (hinv : ApiInv api) :
    ApiInv (applyOp api op) := by
  cases op with
  | reg r c =>
    cases hr : r.resource_name with
    | none => simpa [applyOp, register_of_name_none hr] using hinv
    | some nm =>
      simp only [applyOp, register_of_name_some hr]
      exact apiInv_register_ok api r c _ hinv (register_of_name_some hr)
  | unreg n => exact apiInv_unregister api n hinv

theorem apiInv_foldl (ops : List Op) :
    ∀ api : Api, ApiInv api → ApiInv (ops.foldl applyOp api) := by
  induction ops with
  | nil => exact fun api h => h
  | cons op ops ih =>
    intro api h
    rw [List.foldl_cons]
    exact ih (applyOp api op) (apiInv_applyOp api op h)

theorem apiInv_runOps (ops : List Op) : ApiInv (runOps ops) :=
  apiInv_foldl ops initialApi apiInv_initial

theorem dictGet_canonicals_applyOp (api : Api) (op : Op) (name : String) :
    dictGet (applyOp api op).canonicals name =
      (match op with
       | Op.reg r c =>
           if r.resource_name = some name ∧ c = true then some r
           else dictGet api.canonicals name
       | Op.unreg n =>
           if n = name then none else dictGet api.canonicals name) := by
  cases op with
  | reg r c =>
    cases hr : r.resource_name with
    | none => simp [applyOp, register_of_name_none hr, hr]
    | some nm =>
      cases c with
      | true =>
        by_cases hnm : nm = name
        · subst hnm
          simp [applyOp, register_of_name_some hr, hr, dictGet_insert_self]
        · simp [applyOp, register_of_name_some hr, hr, hnm,
            dictGet_insert_ne api.canonicals nm name r (fun hcon => hnm hcon.symm)]
      | false => simp [applyOp, register_of_name_some hr, hr]
  | unreg n =>
    simp only [applyOp, unregister_def]
    by_cases hn : n = name
    · subst hn
      by_cases hc : dictContains api.canonicals n = true
      · simp only [if_pos hc, if_pos rfl]
        exact dictGet_delete_self api.canonicals n
      · simp only [if_neg hc, if_pos rfl]
        exact dictGet_eq_none_of_not_mem
          (fun hm => hc ((dictContains_iff_mem api.canonicals n).mpr hm))
    · by_cases hc : dictContains api.canonicals n = true
      · simp only [if_pos hc, if_neg hn]
        exact dictGet_delete_ne api.canonicals n name (fun hcon => hn hcon.symm)
      · simp only [if_neg hc, if_neg hn]

theorem dictGet_canonicals_foldl (ops : List Op) :
    ∀ (api : Api) (name : String),
      dictGet ((ops.foldl applyOp api)).canonicals name =
        ops.foldl
          (fun acc op =>
            match op with
            | Op.reg r c =>
                if r.resource_name = some name ∧ c = true then some r else acc
            | Op.unreg n => if n = name then none else acc)
          (dictGet api.canonicals name) := by
  induction ops with
  | nil => exact fun api name => rfl
  | cons op ops ih =>
    intro api name
    rw [List.foldl_cons, List.foldl_cons, ih (applyOp api op) name,
      dictGet_canonicals_applyOp api op name]

/-! ### Claims about the registry operations -/

/-- C3: the registry is dictionary-backed.  Registering a resource whose
`resource_name` is a string succeeds and makes the registry map that
name to that resource, overwriting any previous binding and leaving all
other names unchanged; and after any sequence of register/unregister
operations from the initial state the registry keys are pairwise
distinct, so each resource name is bound to at most one resource. -/
theorem C3_register_dict_backed :
    (∀ (api : Api) (r : Resource) (c : Bool) (name : String),
      r.resource_name = some name →
      ∃ api2, Api.register api r c = Except.ok api2 ∧
        dictGet api2.registry name = some r ∧
        ∀ m, m ≠ name → dictGet api2.registry m = dictGet api.registry m) ∧
    (∀ ops : List Op, (dictKeys (runOps ops).registry).Nodup) := by
  constructor
  · intro api r c name h
    refine ⟨_, register_of_name_some h, ?_, ?_⟩
    · dsimp only
      exact dictGet_insert_self api.registry name r
    · intro m hm
      dsimp only
      exact dictGet_insert_ne api.registry name m r hm
  · intro ops
    exact nodup_registry_foldl ops initialApi List.nodup_nil

/-- Witness for C3 at a concrete resource registered into the empty
api. -/
theorem C3_register_dict_backed_witness :
    ∃ api2, Api.register initialApi ⟨some "entries", none, 0⟩ true = Except.ok api2 ∧
      dictGet api2.registry "entries" = some ⟨some "entries", none, 0⟩ ∧
      ∀ m, m ≠ "entries" → dictGet api2.registry m = dictGet initialApi.registry m :=
  C3_register_dict_backed.1 initialApi ⟨some "entries", none, 0⟩ true "entries" rfl

/-- C5: `unregister` removes the name from both the registry and the
canonicals mapping when present; on a state satisfying the
registry/canonicals invariant it is a no-op when the name is not
registered; and it is idempotent. -/
theorem C5_unregister_removes_idempotent :
    (∀ (api : Api) (n : String),
      dictGet (Api.unregister api n).registry n = none ∧
      dictGet (Api.unregister api n).canonicals n = none) ∧
    (∀ (api : Api) (n : String), ApiInv api → n ∉ dictKeys api.registry →
      Api.unregister api n = api) ∧
    (∀ (api : Api) (n : String),
      Api.unregister (Api.unregister api n) n = Api.unregister api n) := by
  refine ⟨?_, ?_, ?_⟩
  · intro api n
    exact ⟨dictGet_eq_none_of_not_mem (not_mem_registry_unregister api n),
      dictGet_eq_none_of_not_mem (not_mem_canonicals_unregister api n)⟩
  · intro api n hinv hn
    have h1 : dictContains api.registry n = false := by
      cases hcc : dictContains api.registry n
      · rfl
      · exact absurd ((dictContains_iff_mem _ _).mp hcc) hn
    have h2 : dictContains api.canonicals n = false := by
      cases hcc : dictContains api.canonicals n
      · rfl
      · exact absurd (hinv n ((dictContains_iff_mem _ _).mp hcc)) hn
    exact unregister_of_not_contains api n h1 h2
  · intro api n
    have h1 : dictContains (Api.unregister api n).registry n = false := by
      cases hcc : dictContains (Api.unregister api n).registry n
      · rfl
      · exact absurd ((dictContains_iff_mem _ _).mp hcc)
          (not_mem_registry_unregister api n)
    have h2 : dictContains (Api.unregister api n).canonicals n = false := by
      cases hcc : dictContains (Api.unregister api n).canonicals n
      · rfl
      · exact absurd ((dictContains_iff_mem _ _).mp hcc)
          (not_mem_canonicals_unregister api n)
    exact unregister_of_not_contains (Api.unregister api n) n h1 h2

/-- Witness for C5: unregistering a name absent from the empty api
leaves the state unchanged. -/
theorem C5_unregister_removes_idempotent_witness :
    Api.unregister initialApi "entries" = initialApi :=
  C5_unregister_removes_idempotent.2.1 initialApi "entries" apiInv_initial
    (by simp [initialApi, dictKeys])

/-- C8: `register` raises `ImproperlyConfigured` exactly when the
resource's `resource_name` is absent, and the raised error carries the
unchanged pre-state (registry and canonicals untouched); with a present
`resource_name` it returns normally. -/
theorem C8_register_raises_iff :
    ∀ (api : Api) (r : Resource) (c : Bool),
      (r.resource_name = none →
        ∃ msg, Api.register api r c =
          Except.error (ApiError.improperlyConfigured msg, api)) ∧
      (∀ s, r.resource_name = some s →
        ∃ api2, Api.register api r c = Except.ok api2) := by
  intro api r c
  constructor
  · intro h
    exact ⟨_, register_of_name_none h⟩
  · intro s h
    exact ⟨_, register_of_name_some h⟩

/-- Witness for C8: registering a resource without a `resource_name`
into the empty api raises and leaves the state unchanged. -/
theorem C8_register_raises_iff_witness :
    ∃ msg, Api.register initialApi ⟨none, none, 0⟩ true =
      Except.error (ApiError.improperlyConfigured msg, initialApi) :=
  (C8_register_raises_iff initialApi ⟨none, none, 0⟩ true).1 rfl

/-- C9: after any sequence of operations from the initial state,
`canonical_resource_for` returns the resource most recently registered
as canonical under the name and not unregistered since, and raises
`NotRegistered` when there is none; in both cases the state it returns
is the unchanged input state. -/
theorem C9_canonical_resource_for_trace (ops : List Op) (name : String) :
    Api.canonical_resource_for (runOps ops) name =
      (match lastCanonical ops name with
       | some r => Except.ok (r, runOps ops)
       | none => Except.error (ApiError.notRegistered
           ("No resource was registered as canonical for '" ++ name ++ "'."),
           runOps ops)) := by
  have h : dictGet (runOps ops).canonicals name = lastCanonical ops name := by
    rw [runOps, lastCanonical, dictGet_canonicals_foldl]
    rfl
  unfold Api.canonical_resource_for
  rw [h]

/-- C10: the invariant that every canonical name is a registered name
holds initially and is preserved by `register` (on success and on
error) and by `unregister`; hence it holds after any sequence of
operations from the initial state. -/
theorem C10_canonicals_subset_registry :
    ApiInv initialApi ∧
    (∀ (api : Api) (r : Resource) (c : Bool) (api2 : Api),
      ApiInv api → Api.register api r c = Except.ok api2 → ApiInv api2) ∧
    (∀ (api : Api) (r : Resource) (c : Bool) (e : ApiError) (api2 : Api),
      ApiInv api → Api.register api r c = Except.error (e, api2) → ApiInv api2) ∧
    (∀ (api : Api) (n : String), ApiInv api → ApiInv (Api.unregister api n)) ∧
    (∀ ops : List Op, ApiInv (runOps ops)) :=
  ⟨apiInv_initial, apiInv_register_ok, apiInv_register_error, apiInv_unregister,
    apiInv_runOps⟩

/-- Witness for C10: the invariant after unregistering from the empty
api. -/
theorem C10_canonicals_subset_registry_witness :
    ApiInv (Api.unregister initialApi "entries") :=
  C10_canonicals_subset_registry.2.2.2.1 initialApi "entries"
    C10_canonicals_subset_registry.1

/-! ### Lemmas about `urls` and `top_level` -/

theorem urls_foldl_spec (an : String) :
    ∀ (ks : List String) (d : Dict Resource) (ps : List UrlPattern),
      ks.Nodup → (∀ n ∈ ks, n ∈ dictKeys d) →
      (ks.foldl (urlsStep an) (d, ps)).2 =
        ps ++ ks.map (fun n =>
          UrlPattern.includeRes ("^(?P<api_name>" ++ an ++ ")/")
            { (dictGet d n).getD ⟨none, none, 0⟩ with api_name := some an }) := by
  intro ks
  induction ks with
  | nil =>
    intro d ps _ _
    simp
  | cons k ks ih =>
    intro d ps hnd hmem
    rw [List.foldl_cons]
    obtain ⟨r, hr⟩ : ∃ r, dictGet d k = some r := by
      cases hg : dictGet d k with
      | none =>
        have := (dictGet_isSome_iff_mem d k).mpr (hmem k (List.mem_cons_self k ks))
        rw [hg] at this
        exact absurd this (by simp)
      | some r => exact ⟨r, rfl⟩
    have hstep : urlsStep an (d, ps) k =
        (dictInsert d k { r with api_name := some an },
         ps ++ [UrlPattern.includeRes ("^(?P<api_name>" ++ an ++ ")/")
           { r with api_name := some an }]) := by
      simp [urlsStep, hr]
    rw [hstep, ih (dictInsert d k { r with api_name := some an })
      (ps ++ [UrlPattern.includeRes ("^(?P<api_name>" ++ an ++ ")/")
        { r with api_name := some an }])
      hnd.of_cons
      (fun n hn => (mem_dictKeys_insert d k n { r with api_name := some an }).mpr
        (Or.inl (hmem n (List.mem_cons_of_mem k hn))))]
    rw [List.append_assoc, List.singleton_append, List.map_cons, hr]
    have hmap : ∀ n ∈ ks,
        (fun n => UrlPattern.includeRes ("^(?P<api_name>" ++ an ++ ")/")
          { (dictGet (dictInsert d k { r with api_name := some an }) n).getD
              ⟨none, none, 0⟩ with api_name := some an }) n =
        (fun n => UrlPattern.includeRes ("^(?P<api_name>" ++ an ++ ")/")
          { (dictGet d n).getD ⟨none, none, 0⟩ with api_name := some an }) n := by
      intro n hn
      have hne : n ≠ k := fun hcon => (List.nodup_cons.mp hnd).1 (hcon ▸ hn)
      dsimp only
      rw [dictGet_insert_ne d k n { r with api_name := some an } hne]
    rw [List.map_congr_left hmap]
    rfl

theorem urls_patterns (api : Api) (h : (dictKeys api.registry).Nodup) :
    (Api.urls api).1 =
      UrlPattern.view ("^(?P<api_name>" ++ api.api_name ++ ")/$") "top_level"
        ("api_" ++ api.api_name ++ "_top_level")
      :: (sortedKeys api.registry).map (fun n =>
          UrlPattern.includeRes ("^(?P<api_name>" ++ api.api_name ++ ")/")
            { (dictGet api.registry n).getD ⟨none, none, 0⟩ with
                api_name := some api.api_name }) := by
  have hnd : (sortedKeys api.registry).Nodup :=
    (List.perm_insertionSort _ _).nodup_iff.mpr h
  have hmem : ∀ n ∈ sortedKeys api.registry, n ∈ dictKeys api.registry :=
    fun n hn => (List.perm_insertionSort _ _).mem_iff.mp hn
  show ((sortedKeys api.registry).foldl (urlsStep api.api_name)
    (api.registry,
     [UrlPattern.view ("^(?P<api_name>" ++ api.api_name ++ ")/$") "top_level"
       ("api_" ++ api.api_name ++ "_top_level")])).2 = _
  rw [urls_foldl_spec api.api_name (sortedKeys api.registry) api.registry _ hnd hmem]
  rw [List.singleton_append]

theorem foldl_dictInsert_fresh (f : String → String) :
    ∀ (ks : List String) (init : Dict String),
      ks.Nodup → (∀ n ∈ ks, n ∉ dictKeys init) →
      ks.foldl (fun acc name => dictInsert acc name (f name)) init =
        init ++ ks.map (fun n => (n, f n)) := by
  intro ks
  induction ks with
  | nil =>
    intro init _ _
    simp
  | cons k ks ih =>
    intro init hnd hfresh
    rw [List.foldl_cons]
    have hni : ¬((init.any fun p => p.1 == k) = true) := fun hcon =>
      hfresh k (List.mem_cons_self k ks) ((dictContains_iff_mem init k).mp hcon)
    have h1 : dictInsert init k (f k) = init ++ [(k, f k)] := by
      rw [dictInsert, if_neg hni]
    rw [h1, ih (init ++ [(k, f k)]) hnd.of_cons ?_]
    · rw [List.append_assoc, List.singleton_append, List.map_cons]
    · intro n hn hmemn
      rw [dictKeys, List.map_append, List.mem_append] at hmemn
      rcases hmemn with hmemn | hmemn
      · exact hfresh n (List.mem_cons_of_mem k hn) hmemn
      · rw [List.map_singleton, List.mem_singleton] at hmemn
        have hnk : n = k := hmemn
        exact (List.nodup_cons.mp hnd).1 (hnk ▸ hn)

/-! ### Claims about `urls` and `top_level` -/

/-- C1: for every Api state with well-formed registry (pairwise-distinct
keys, as Python dicts guarantee), `top_level` returns an HTTP response
whose body is the serialization of a mapping whose key set is exactly
the registered resource names, each mapped to the reversed
list-endpoint URL built from that name and the given api name (the
Api's own `api_name` when the argument is `None`), in the negotiated
format. -/
theorem C1_top_level_discovery (api : Api) (request : Request)
    (api_name : Option String) (h : (dictKeys api.registry).Nodup) :
    ∃ m : Dict String,
      (Api.top_level api request api_name).1 =
        { content := serialize m (determine_format request),
          content_type := build_content_type (determine_format request) } ∧
      (∀ n, n ∈ dictKeys m ↔ n ∈ dictKeys api.registry) ∧
      (∀ p ∈ m, p.2 = reverse_api_dispatch_list
        (match api_name with | none => api.api_name | some a => a) p.1) := by
  have hnd : (sortedKeys api.registry).Nodup :=
    (List.perm_insertionSort _ _).nodup_iff.mpr h
  refine ⟨(sortedKeys api.registry).map (fun n => (n, reverse_api_dispatch_list
    (match api_name with | none => api.api_name | some a => a) n)), ?_, ?_, ?_⟩
  · have hav : (sortedKeys api.registry).foldl
        (fun acc name => dictInsert acc name (reverse_api_dispatch_list
          (match api_name with | none => api.api_name | some a => a) name)) [] =
        (sortedKeys api.registry).map (fun n => (n, reverse_api_dispatch_list
          (match api_name with | none => api.api_name | some a => a) n)) := by
      rw [foldl_dictInsert_fresh _ _ [] hnd (fun n _ hm => absurd hm (List.not_mem_nil n))]
      rw [List.nil_append]
    simp only [Api.top_level]
    rw [hav]
  · intro n
    have hkeys : dictKeys ((sortedKeys api.registry).map
        (fun n => (n, reverse_api_dispatch_list
          (match api_name with | none => api.api_name | some a => a) n))) =
        sortedKeys api.registry := by
      rw [dictKeys, List.map_map]
      exact List.map_id (sortedKeys api.registry)
    rw [hkeys]
    exact (List.perm_insertionSort _ _).mem_iff
  · intro p hp
    rw [List.mem_map] at hp
    obtain ⟨n, hn, rfl⟩ := hp
    rfl

/-- Witness for C1 at a one-resource api and a concrete request. -/
theorem C1_top_level_discovery_witness :
    ∃ m : Dict String,
      (Api.top_level ⟨"v1", [("entries", ⟨some "entries", none, 0⟩)], []⟩
        ⟨"json"⟩ none).1 =
        { content := serialize m (determine_format ⟨"json"⟩),
          content_type := build_content_type (determine_format ⟨"json"⟩) } ∧
      (∀ n, n ∈ dictKeys m ↔
        n ∈ dictKeys (⟨"v1", [("entries", ⟨some "entries", none, 0⟩)], []⟩ : Api).registry) ∧
      (∀ p ∈ m, p.2 = reverse_api_dispatch_list
        (match (none : Option String) with
         | none => (⟨"v1", [("entries", ⟨some "entries", none, 0⟩)], []⟩ : Api).api_name
         | some a => a) p.1) :=
  C1_top_level_discovery ⟨"v1", [("entries", ⟨some "entries", none, 0⟩)], []⟩
    ⟨"json"⟩ none (by decide)

/-- C2: every pattern produced by `urls` sits under the api-name
namespace: the discovery view is routed at
`^(?P<api_name>{api_name})/$` and every other pattern is an include of
a resource's urls under the regex `^(?P<api_name>{api_name})/`. -/
theorem C2_urls_namespace (api : Api) (h : (dictKeys api.registry).Nodup) :
    (Api.urls api).1.head? =
      some (UrlPattern.view ("^(?P<api_name>" ++ api.api_name ++ ")/$")
        "top_level" ("api_" ++ api.api_name ++ "_top_level")) ∧
    ∀ p ∈ (Api.urls api).1.tail, ∃ r : Resource,
      p = UrlPattern.includeRes ("^(?P<api_name>" ++ api.api_name ++ ")/") r := by
  rw [urls_patterns api h]
  constructor
  · rfl
  · intro p hp
    rw [List.tail_cons, List.mem_map] at hp
    obtain ⟨n, hn, rfl⟩ := hp
    exact ⟨_, rfl⟩

/-- Witness for C2 at a one-resource api. -/
theorem C2_urls_namespace_witness :
    (Api.urls ⟨"v1", [("entries", ⟨some "entries", none, 0⟩)], []⟩).1.head? =
      some (UrlPattern.view ("^(?P<api_name>" ++ "v1" ++ ")/$")
        "top_level" ("api_" ++ "v1" ++ "_top_level")) ∧
    ∀ p ∈ (Api.urls ⟨"v1", [("entries", ⟨some "entries", none, 0⟩)], []⟩).1.tail,
      ∃ r : Resource,
        p = UrlPattern.includeRes ("^(?P<api_name>" ++ "v1" ++ ")/") r :=
  C2_urls_namespace ⟨"v1", [("entries", ⟨some "entries", none, 0⟩)], []⟩ (by decide)

/-- C4: on a well-formed registry, the pattern list produced by `urls`
begins with the top-level discovery pattern and is followed by exactly
one include per registered resource, in ascending lexicographic order
of the registered names. -/
theorem C4_urls_sorted (api : Api) (h : (dictKeys api.registry).Nodup) :
    ∃ ns : List String,
      ns.Perm (dictKeys api.registry) ∧
      List.Sorted (fun a b => a ≤ b) ns ∧
      (Api.urls api).1 =
        UrlPattern.view ("^(?P<api_name>" ++ api.api_name ++ ")/$") "top_level"
          ("api_" ++ api.api_name ++ "_top_level")
        :: ns.map (fun n =>
            UrlPattern.includeRes ("^(?P<api_name>" ++ api.api_name ++ ")/")
              { (dictGet api.registry n).getD ⟨none, none, 0⟩ with
                  api_name := some api.api_name }) :=
  ⟨sortedKeys api.registry, List.perm_insertionSort _ _,
    List.sorted_insertionSort _ _, urls_patterns api h⟩

/-- Witness for C4 at a two-resource api whose keys are stored in
reverse order. -/
theorem C4_urls_sorted_witness :
    ∃ ns : List String,
      ns.Perm (dictKeys (⟨"v1",
        [("notes", ⟨some "notes", none, 1⟩), ("entries", ⟨some "entries", none, 0⟩)],
        []⟩ : Api).registry) ∧
      List.Sorted (fun a b => a ≤ b) ns ∧
      (Api.urls ⟨"v1",
        [("notes", ⟨some "notes", none, 1⟩), ("entries", ⟨some "entries", none, 0⟩)],
        []⟩).1 =
        UrlPattern.view ("^(?P<api_name>" ++ "v1" ++ ")/$") "top_level"
          ("api_" ++ "v1" ++ "_top_level")
        :: ns.map (fun n =>
            UrlPattern.includeRes ("^(?P<api_name>" ++ "v1" ++ ")/")
              { (dictGet (⟨"v1",
                  [("notes", ⟨some "notes", none, 1⟩),
                   ("entries", ⟨some "entries", none, 0⟩)], []⟩ : Api).registry n).getD
                  ⟨none, none, 0⟩ with api_name := some "v1" }) :=
  C4_urls_sorted ⟨"v1",
    [("notes", ⟨some "notes", none, 1⟩), ("entries", ⟨some "entries", none, 0⟩)],
    []⟩ (by decide)

/-- C6 counterexample: two Api states with equal registries and equal
canonicals mappings, receiving the same request and the same (None)
api_name argument, nevertheless produce different `urls` pattern lists
and different `top_level` responses, because both also read the Api's
own `api_name` attribute. -/
theorem C6_determinism_counterexample :
    (⟨"v1", [("entries", ⟨some "entries", none, 0⟩)], []⟩ : Api).registry =
      (⟨"v2", [("entries", ⟨some "entries", none, 0⟩)], []⟩ : Api).registry ∧
    (⟨"v1", [("entries", ⟨some "entries", none, 0⟩)], []⟩ : Api).canonicals =
      (⟨"v2", [("entries", ⟨some "entries", none, 0⟩)], []⟩ : Api).canonicals ∧
    (Api.urls ⟨"v1", [("entries", ⟨some "entries", none, 0⟩)], []⟩).1 ≠
      (Api.urls ⟨"v2", [("entries", ⟨some "entries", none, 0⟩)], []⟩).1 ∧
    (Api.top_level ⟨"v1", [("entries", ⟨some "entries", none, 0⟩)], []⟩
        ⟨"json"⟩ none).1 ≠
      (Api.top_level ⟨"v2", [("entries", ⟨some "entries", none, 0⟩)], []⟩
        ⟨"json"⟩ none).1 := by
  refine ⟨rfl, rfl, ?_, ?_⟩ <;> decide

/-- C6 amended: `urls` and `top_level` are deterministic functions of
the full Api state (api_name, registry and canonicals) and their
arguments: two Apis agreeing on all three fields produce equal outputs
for equal inputs. -/
theorem C6_determinism_amended (a1 a2 : Api) (request : Request)
    (api_name : Option String)
    (h1 : a1.api_name = a2.api_name) (h2 : a1.registry = a2.registry)
    (h3 : a1.canonicals = a2.canonicals) :
    Api.urls a1 = Api.urls a2 ∧
    Api.top_level a1 request api_name = Api.top_level a2 request api_name := by
  obtain ⟨x1, y1, z1⟩ := a1
  obtain ⟨x2, y2, z2⟩ := a2
  cases h1
  cases h2
  cases h3
  exact ⟨rfl, rfl⟩

/-- Witness for the amended C6 at concrete equal states. -/
theorem C6_determinism_amended_witness :
    Api.urls ⟨"v1", [("entries", ⟨some "entries", none, 0⟩)], []⟩ =
      Api.urls ⟨"v1", [("entries", ⟨some "entries", none, 0⟩)], []⟩ ∧
    Api.top_level ⟨"v1", [("entries", ⟨some "entries", none, 0⟩)], []⟩ ⟨"json"⟩ none =
      Api.top_level ⟨"v1", [("entries", ⟨some "entries", none, 0⟩)], []⟩ ⟨"json"⟩ none :=
  C6_determinism_amended ⟨"v1", [("entries", ⟨some "entries", none, 0⟩)], []⟩
    ⟨"v1", [("entries", ⟨some "entries", none, 0⟩)], []⟩ ⟨"json"⟩ none rfl rfl rfl

/-- C7: `top_level` is a pure view over the registry: the Api state it
returns has the same registry and the same canonicals mapping as the
input state. -/
theorem C7_top_level_frame (api : Api) (request : Request)
    (api_name : Option String) :
    ((Api.top_level api request api_name).2).registry = api.registry ∧
    ((Api.top_level api request api_name).2).canonicals = api.canonicals :=
  ⟨rfl, rfl⟩
